import Mathlib

/-!
Verification of the favicon-processing pipeline (`process_favicons.py`).

The pipeline, per input image:
  1. decode to RGBA;
  2. convert to grayscale, compute the mean brightness, classify the
     background polarity (`avg > 200` means a light background), and scan
     every pixel for foreground content, accumulating the minimal
     enclosing rectangle;
  3. crop to that rectangle when `max_x > min_x and max_y > min_y`;
  4. pad by `int(width * 0.03)` / `int(height * 0.03)` on each side with a
     fully transparent fill;
  5. square the canvas to side `max(width, height)`, pasting the padded
     image at integer-division-centred offsets;
  6. apply a circular alpha mask;
  7. save the full-resolution result plus one resized copy per configured
     size.

Images are modelled as a width, a height and a total pixel function
(out-of-range coordinates are harmless junk, never relied upon).
-/

/-- An 8-bit-per-channel RGBA pixel.  Channel values are `Nat`s; every
value produced by the pipeline stays below 256. -/
structure RGBA where
  r : Nat
  g : Nat
  b : Nat
  a : Nat
deriving DecidableEq, Repr

/-- A raster image: dimensions plus a pixel lookup `x y ↦ RGBA`. -/
structure Img where
  width : Nat
  height : Nat
  pixel : Nat → Nat → RGBA

/-- Grayscale (luminance) conversion used by `img.convert('L')`:
`L = (R*19595 + G*38470 + B*7471 + 32768) >> 16` (ITU-R 601-2 weights as
implemented by the imaging library; the alpha channel is ignored). -/
def lum (p : RGBA) : Nat :=
  (p.r * 19595 + p.g * 38470 + p.b * 7471 + 32768) / 65536

/-- Row-major coordinate list `(x, y)` for `for y: for x:` traversal. -/
def coords (w h : Nat) : List (Nat × Nat) :=
  (List.range h).flatMap (fun y => (List.range w).map (fun x => (x, y)))

/-- The grayscale sum of one row of pixels. -/
def rowBrightness (img : Img) (y : Nat) : Nat :=
  (List.range img.width).foldl (fun acc x => acc + lum (img.pixel x y)) 0

/-- `total_brightness`: the sum of the grayscale values of all pixels,
accumulated row by row exactly as the source's
`sum(pixels[x, y] for y in range(height) for x in range(width))`. -/
def totalBrightness (img : Img) : Nat :=
  (List.range img.height).foldl (fun acc y => acc + rowBrightness img y) 0

/-- `avg_brightness > 200`: the background-polarity test.  The source
compares `total / (width*height) > 200` in exact division; this is the
equivalent integer form `200 * (width*height) < total`. -/
def isLightBg (img : Img) : Bool :=
  decide (200 * (img.width * img.height) < totalBrightness img)

/-- The foreground-content predicate (`is_content` in the source): on a
light background a pixel is content when its grayscale value is below the
threshold 250; on a dark background, when it is above the threshold 50. -/
def isContentAt (lightBg : Bool) (v : Nat) : Bool :=
  if lightBg then decide (v < 250) else decide (50 < v)

/-- The accumulated enclosing rectangle `(min_x, min_y, max_x, max_y)`. -/
@[ext]
structure Bounds where
  minX : Nat
  minY : Nat
  maxX : Nat
  maxY : Nat
deriving DecidableEq, Repr

/-- One step of the per-pixel bounds scan: update the four accumulators
when the pixel is content, leave them alone otherwise. -/
def scanStep (img : Img) (lightBg : Bool) (b : Bounds) (c : Nat × Nat) : Bounds :=
  if isContentAt lightBg (lum (img.pixel c.1 c.2)) then
    ⟨min b.minX c.1, min b.minY c.2, max b.maxX c.1, max b.maxY c.2⟩
  else b

/-- The full bounds scan: the source's `for y: for x:` nested loops,
starting from `min_x, min_y = width, height` and `max_x, max_y = 0, 0`. -/
def scanBounds (img : Img) (lightBg : Bool) : Bounds :=
  (List.range img.height).foldl
    (fun b y => (List.range img.width).foldl
      (fun b x => scanStep img lightBg b (x, y)) b)
    ⟨img.width, img.height, 0, 0⟩

/-- The bounds the pipeline actually uses: the scan under the polarity
derived from the image's own mean brightness. -/
def processBounds (img : Img) : Bounds :=
  scanBounds img (isLightBg img)

/-- The crop guard `max_x > min_x and max_y > min_y`. -/
def cropCond (b : Bounds) : Bool :=
  decide (b.minX < b.maxX) && decide (b.minY < b.maxY)

/-- `img.crop((l, t, r, b))`: the rectangle `[l, r) × [t, b)` of the
source, so the result is `(r - l) × (b - t)` with pixel `(x, y)` taken
from source pixel `(x + l, y + t)`. -/
def crop (img : Img) (l t r b : Nat) : Img :=
  ⟨r - l, b - t, fun x y => img.pixel (x + l) (y + t)⟩

/-- The image handed to the padding step: the crop to
`(min_x, min_y, max_x + 1, max_y + 1)` when the guard holds, the original
image otherwise. -/
def contentImg (img : Img) : Img :=
  if cropCond (processBounds img) then
    crop img (processBounds img).minX (processBounds img).minY
      ((processBounds img).maxX + 1) ((processBounds img).maxY + 1)
  else img

/-- `int(n * 0.03)`: 3% of a dimension, truncated.  For every image
dimension `n` the float product `n * 0.03` truncates to `3 * n / 100`
because `0.03` rounds to a double a hair above `3/100` and the gap to
the next integer is at least `1/100`. -/
def padAmount (n : Nat) : Nat :=
  n * 3 / 100

/-- The padding step: a canvas grown by the padding on each side, filled
with fully transparent white `(255, 255, 255, 0)`, with the image pasted
at offset `(padding_x, padding_y)`. -/
def padStage (img : Img) : Img :=
  ⟨img.width + 2 * padAmount img.width, img.height + 2 * padAmount img.height,
   fun x y =>
     if padAmount img.width ≤ x ∧ x < padAmount img.width + img.width ∧
        padAmount img.height ≤ y ∧ y < padAmount img.height + img.height then
       img.pixel (x - padAmount img.width) (y - padAmount img.height)
     else ⟨255, 255, 255, 0⟩⟩

/-- The squaring step: a transparent square canvas of side
`max(width, height)` with the image pasted at
`((side - width) / 2, (side - height) / 2)` (integer division). -/
def squareStage (img : Img) : Img :=
  ⟨max img.width img.height, max img.width img.height,
   fun x y =>
     if (max img.width img.height - img.width) / 2 ≤ x ∧
        x < (max img.width img.height - img.width) / 2 + img.width ∧
        (max img.width img.height - img.height) / 2 ≤ y ∧
        y < (max img.width img.height - img.height) / 2 + img.height then
       img.pixel (x - (max img.width img.height - img.width) / 2)
         (y - (max img.width img.height - img.height) / 2)
     else ⟨255, 255, 255, 0⟩⟩

/-- Modelled from the spec: `create_circular_mask` rasterizes a filled
ellipse through the external imaging library, which is not part of this
repository; the spec defines the mask as "maximal opacity inside the
inscribed circle (centered, diameter = canvas side), zero outside".
A pixel `(x, y)` of a side-`s` canvas belongs to the inscribed circle
when its centre `(x + 1/2, y + 1/2)` lies within distance `s/2` of the
canvas centre `(s/2, s/2)`; clearing denominators this is
`(2x + 1 - s)² + (2y + 1 - s)² ≤ s²`. -/
def maskVal (s x y : Nat) : Nat :=
  if ((2 * x + 1 : Int) - s) ^ 2 + ((2 * y + 1 : Int) - s) ^ 2 ≤ (s : Int) ^ 2 then
    255
  else 0

/-- The mask-application step: `output.paste(img_square, (0, 0))` onto a
fresh canvas copies the square image verbatim, then
`output.putalpha(mask)` replaces the alpha channel of every pixel with
the mask value. -/
def maskStage (img : Img) : Img :=
  ⟨img.width, img.height,
   fun x y => ⟨(img.pixel x y).r, (img.pixel x y).g, (img.pixel x y).b,
               maskVal img.width x y⟩⟩

/-- The normalized full-resolution circular artifact: crop, pad, square,
mask. -/
def normalizedImg (img : Img) : Img :=
  maskStage (squareStage (padStage (contentImg img)))

/-- Modelled from the spec: the Resizer derives an `s × s` copy of the
normalized canvas via high-quality resampling.  The resampling kernel
lives in the external imaging library; only the output dimensions are
specified and relied upon here, so pixel values use a placeholder
coordinate sampling. -/
def resizeModel (img : Img) (s : Nat) : Img :=
  ⟨s, s, fun x y => img.pixel (x * img.width / s) (y * img.height / s)⟩

/-- The default configured size list `[16, 32, 180, 192, 512]`. -/
def defaultSizes : List Nat :=
  [16, 32, 180, 192, 512]

/-- `process_favicon`, observationally: the full-resolution circular
artifact together with one `(size, resized image)` artifact per
configured size, in order. -/
def processFavicon (img : Img) (sizes : List Nat) : Img × List (Nat × Img) :=
  (normalizedImg img, sizes.map (fun s => (s, resizeModel (normalizedImg img) s)))

/-- The save loop over the configured sizes, with the external encoder's
write outcomes supplied as an oracle (`fails s = true` means saving size
`s` raises `EncodeError`, as the spec describes write failure).  The
source wraps no handler around the loop, so a raised error propagates:
the result records the sizes whose save was attempted, in order, and the
error if one was raised. -/
def saveSizes (fails : Nat → Bool) : List Nat → List Nat × Option Nat
  | [] => ([], none)
  | s :: rest =>
    if fails s then ([s], some s)
    else ((saveSizes fails rest).1.cons s, (saveSizes fails rest).2)

/-- The concrete end-to-end input of the spec's scenario: a 100×100
all-white image with a single black 10×10 square at pixels
(45,45)–(54,54). -/
def img100 : Img :=
  ⟨100, 100,
   fun x y =>
     if 45 ≤ x ∧ x ≤ 54 ∧ 45 ≤ y ∧ y ≤ 54 then ⟨0, 0, 0, 255⟩
     else ⟨255, 255, 255, 255⟩⟩

/-- A 5×5 white image whose only dark pixels form a single column:
(2,1), (2,2), (2,3).  Mean brightness `22·255/25 = 224.4 > 200`, so the
background is light and exactly those three pixels are content; the
accumulated rectangle spans one column (`min_x = max_x = 2`). -/
def imgC2 : Img :=
  ⟨5, 5,
   fun x y =>
     if x = 2 ∧ 1 ≤ y ∧ y ≤ 3 then ⟨0, 0, 0, 255⟩
     else ⟨255, 255, 255, 255⟩⟩

/-- A 10×10 white image with a black 2×8 rectangle at x ∈ [4,5],
y ∈ [1,8].  Mean brightness `84·255/100 = 214.2 > 200` (light
background); the crop is 2×8, padding is 0, and the squared canvas is
8×8 with transparent 3-pixel margins pasted left and right. -/
def imgC3 : Img :=
  ⟨10, 10,
   fun x y =>
     if 4 ≤ x ∧ x ≤ 5 ∧ 1 ≤ y ∧ y ≤ 8 then ⟨0, 0, 0, 255⟩
     else ⟨255, 255, 255, 255⟩⟩

/-- A 1×1 single-pixel black image (tiny-input safety witness). -/
def onePix : Img :=
  ⟨1, 1, fun _ _ => ⟨0, 0, 0, 255⟩⟩

/-- A 2×2 uniform mid-gray image: mean brightness 120 classifies the
background as dark, and every pixel (brightness 120 > 50) is content. -/
def uniformGray : Img :=
  ⟨2, 2, fun _ _ => ⟨120, 120, 120, 255⟩⟩

/-- A 100×50 constant image used to exercise the padding and squaring
offsets on a non-square input (padding 3 and 1, square side 106). -/
def wideImg : Img :=
  ⟨100, 50, fun _ _ => ⟨10, 20, 30, 40⟩⟩

/-! ### Generic lemmas about the accumulation folds -/

/-- Pointwise congruence for a left fold that adds a function of each
element. -/
theorem foldl_add_congr (g g' : Nat → Nat) :
    ∀ (l : List Nat) (a : Nat), (∀ x ∈ l, g x = g' x) →
      l.foldl (fun acc x => acc + g x) a = l.foldl (fun acc x => acc + g' x) a
  | [], _, _ => rfl
  | x :: l, a, h => by
    simp only [List.foldl_cons]
    rw [h x (List.mem_cons_self x l)]
    exact foldl_add_congr g g' l (a + g' x) (fun z hz => h z (List.mem_cons_of_mem x hz))

/-- A fold over nested loops equals the fold over the flattened
coordinate list. -/
theorem foldl_nested_eq_flatMap {α β : Type} (g : Nat → List α) (step : β → α → β) :
    ∀ (l : List Nat) (b : β),
      l.foldl (fun b y => (g y).foldl step b) b = (l.flatMap g).foldl step b
  | [], _ => rfl
  | y :: l, b => by
    simp only [List.foldl_cons, List.flatMap_cons, List.foldl_append]
    exact foldl_nested_eq_flatMap g step l _

/-- The nested-loop bounds scan equals the fold over the row-major
coordinate list. -/
theorem scanBounds_eq_coords (img : Img) (lightBg : Bool) :
    scanBounds img lightBg =
      (coords img.width img.height).foldl (scanStep img lightBg)
        ⟨img.width, img.height, 0, 0⟩ := by
  unfold scanBounds coords
  rw [← foldl_nested_eq_flatMap]
  simp only [List.foldl_map]

/-- Membership in the row-major coordinate list is exactly being in
range. -/
theorem mem_coords {w h : Nat} {c : Nat × Nat} :
    c ∈ coords w h ↔ c.1 < w ∧ c.2 < h := by
  obtain ⟨x, y⟩ := c
  simp only [coords, List.mem_flatMap, List.mem_map, List.mem_range, Prod.mk.injEq]
  constructor
  · rintro ⟨y', hy', x', hx', rfl, rfl⟩
    exact ⟨hx', hy'⟩
  · rintro ⟨hx, hy⟩
    exact ⟨y, hy, x, hx, rfl, rfl⟩

/-- The bounds scan never raises a minimum or lowers a maximum. -/
theorem scan_mono (img : Img) (lightBg : Bool) :
    ∀ (l : List (Nat × Nat)) (b : Bounds),
      (l.foldl (scanStep img lightBg) b).minX ≤ b.minX ∧
      (l.foldl (scanStep img lightBg) b).minY ≤ b.minY ∧
      b.maxX ≤ (l.foldl (scanStep img lightBg) b).maxX ∧
      b.maxY ≤ (l.foldl (scanStep img lightBg) b).maxY
  | [], _ => ⟨le_refl _, le_refl _, le_refl _, le_refl _⟩
  | c :: l, b => by
    rw [List.foldl_cons]
    have ih := scan_mono img lightBg l (scanStep img lightBg b c)
    have hs : (scanStep img lightBg b c).minX ≤ b.minX ∧
        (scanStep img lightBg b c).minY ≤ b.minY ∧
        b.maxX ≤ (scanStep img lightBg b c).maxX ∧
        b.maxY ≤ (scanStep img lightBg b c).maxY := by
      unfold scanStep
      split
      · exact ⟨Nat.min_le_left _ _, Nat.min_le_left _ _,
          Nat.le_max_left _ _, Nat.le_max_left _ _⟩
      · exact ⟨le_refl _, le_refl _, le_refl _, le_refl _⟩
    exact ⟨le_trans ih.1 hs.1, le_trans ih.2.1 hs.2.1,
      le_trans hs.2.2.1 ih.2.2.1, le_trans hs.2.2.2 ih.2.2.2⟩

/-- Every content pixel visited by the scan is inside the accumulated
rectangle of the result. -/
theorem scan_mem (img : Img) (lightBg : Bool) :
    ∀ (l : List (Nat × Nat)) (b : Bounds) (c : Nat × Nat), c ∈ l →
      isContentAt lightBg (lum (img.pixel c.1 c.2)) = true →
      (l.foldl (scanStep img lightBg) b).minX ≤ c.1 ∧
      (l.foldl (scanStep img lightBg) b).minY ≤ c.2 ∧
      c.1 ≤ (l.foldl (scanStep img lightBg) b).maxX ∧
      c.2 ≤ (l.foldl (scanStep img lightBg) b).maxY
  | [], _, _, hc, _ => absurd hc (List.not_mem_nil _)
  | d :: l, b, c, hc, hp => by
    rw [List.foldl_cons]
    rcases List.mem_cons.mp hc with heq | hmem
    · subst heq
      have ih := scan_mono img lightBg l (scanStep img lightBg b c)
      have hs : (scanStep img lightBg b c).minX ≤ c.1 ∧
          (scanStep img lightBg b c).minY ≤ c.2 ∧
          c.1 ≤ (scanStep img lightBg b c).maxX ∧
          c.2 ≤ (scanStep img lightBg b c).maxY := by
        unfold scanStep
        rw [hp, if_pos rfl]
        exact ⟨Nat.min_le_right _ _, Nat.min_le_right _ _,
          Nat.le_max_right _ _, Nat.le_max_right _ _⟩
      exact ⟨le_trans ih.1 hs.1, le_trans ih.2.1 hs.2.1,
        le_trans hs.2.2.1 ih.2.2.1, le_trans hs.2.2.2 ih.2.2.2⟩
    · exact scan_mem img lightBg l (scanStep img lightBg b d) c hmem hp

/-- If every content pixel of the list lies inside a fixed rectangle and
the accumulator starts inside it, the scan result stays inside it. -/
theorem scan_pres (img : Img) (lightBg : Bool) (n₁ n₂ n₃ n₄ : Nat) :
    ∀ (l : List (Nat × Nat)) (b : Bounds),
      (∀ c ∈ l, isContentAt lightBg (lum (img.pixel c.1 c.2)) = true →
        n₁ ≤ c.1 ∧ n₂ ≤ c.2 ∧ c.1 ≤ n₃ ∧ c.2 ≤ n₄) →
      n₁ ≤ b.minX → n₂ ≤ b.minY → b.maxX ≤ n₃ → b.maxY ≤ n₄ →
      n₁ ≤ (l.foldl (scanStep img lightBg) b).minX ∧
      n₂ ≤ (l.foldl (scanStep img lightBg) b).minY ∧
      (l.foldl (scanStep img lightBg) b).maxX ≤ n₃ ∧
      (l.foldl (scanStep img lightBg) b).maxY ≤ n₄
  | [], b, _, h1, h2, h3, h4 => ⟨h1, h2, h3, h4⟩
  | c :: l, b, h, h1, h2, h3, h4 => by
    rw [List.foldl_cons]
    refine scan_pres img lightBg n₁ n₂ n₃ n₄ l (scanStep img lightBg b c)
      (fun z hz => h z (List.mem_cons_of_mem c hz)) ?_ ?_ ?_ ?_
    all_goals {
      unfold scanStep
      split
      next hcont =>
        have hb := h c (List.mem_cons_self c l) hcont
        dsimp only
        omega
      next hcont =>
        omega
    }

/-- A scan over a list with no content pixel leaves the accumulator
untouched. -/
theorem scan_id (img : Img) (lightBg : Bool) :
    ∀ (l : List (Nat × Nat)) (b : Bounds),
      (∀ c ∈ l, isContentAt lightBg (lum (img.pixel c.1 c.2)) = false) →
      l.foldl (scanStep img lightBg) b = b
  | [], _, _ => rfl
  | c :: l, b, h => by
    rw [List.foldl_cons]
    have hstep : scanStep img lightBg b c = b := by
      unfold scanStep
      rw [h c (List.mem_cons_self c l), if_neg Bool.false_ne_true]
    rw [hstep]
    exact scan_id img lightBg l b (fun z hz => h z (List.mem_cons_of_mem c hz))

/-- When the content pixels are exactly a rectangle
`[n₁, n₃] × [n₂, n₄]` that fits strictly inside the image, the scan
accumulates exactly that rectangle. -/
theorem processBounds_exact (img : Img) (n₁ n₂ n₃ n₄ : Nat)
    (hchar : ∀ x y, x < img.width → y < img.height →
      (isContentAt (isLightBg img) (lum (img.pixel x y)) = true ↔
        (n₁ ≤ x ∧ x ≤ n₃ ∧ n₂ ≤ y ∧ y ≤ n₄)))
    (h1w : n₁ < img.width) (h2h : n₂ < img.height)
    (h3w : n₃ < img.width) (h4h : n₄ < img.height)
    (h13 : n₁ ≤ n₃) (h24 : n₂ ≤ n₄) :
    processBounds img = ⟨n₁, n₂, n₃, n₄⟩ := by
  rw [processBounds, scanBounds_eq_coords]
  have hlist : ∀ c ∈ coords img.width img.height,
      isContentAt (isLightBg img) (lum (img.pixel c.1 c.2)) = true →
      n₁ ≤ c.1 ∧ n₂ ≤ c.2 ∧ c.1 ≤ n₃ ∧ c.2 ≤ n₄ := by
    intro c hc hcont
    obtain ⟨hcx, hcy⟩ := mem_coords.mp hc
    have := (hchar c.1 c.2 hcx hcy).mp hcont
    omega
  have hpres := scan_pres img (isLightBg img) n₁ n₂ n₃ n₄
    (coords img.width img.height) ⟨img.width, img.height, 0, 0⟩ hlist
    (le_of_lt h1w) (le_of_lt h2h) (Nat.zero_le _) (Nat.zero_le _)
  have hm1 := scan_mem img (isLightBg img) (coords img.width img.height)
    ⟨img.width, img.height, 0, 0⟩ (n₁, n₂)
    (mem_coords.mpr ⟨h1w, h2h⟩)
    ((hchar n₁ n₂ h1w h2h).mpr ⟨le_refl _, h13, le_refl _, h24⟩)
  have hm2 := scan_mem img (isLightBg img) (coords img.width img.height)
    ⟨img.width, img.height, 0, 0⟩ (n₃, n₂)
    (mem_coords.mpr ⟨h3w, h2h⟩)
    ((hchar n₃ n₂ h3w h2h).mpr ⟨h13, le_refl _, le_refl _, h24⟩)
  have hm3 := scan_mem img (isLightBg img) (coords img.width img.height)
    ⟨img.width, img.height, 0, 0⟩ (n₁, n₄)
    (mem_coords.mpr ⟨h1w, h4h⟩)
    ((hchar n₁ n₄ h1w h4h).mpr ⟨le_refl _, h13, h24, le_refl _⟩)
  refine Bounds.ext ?_ ?_ ?_ ?_ <;> dsimp only <;> omega

/-! ### The concrete 100×100 scenario input -/

/-- Each row of `img100` outside the square band sums to `100·255`. -/
theorem rowBrightness_img100_out (y : Nat) (h : ¬(45 ≤ y ∧ y ≤ 54)) :
    rowBrightness img100 y = 25500 := by
  have hpt : ∀ x ∈ List.range 100, lum (img100.pixel x y) = 255 := by
    intro x _
    have hpx : img100.pixel x y =
        (if 45 ≤ x ∧ x ≤ 54 ∧ 45 ≤ y ∧ y ≤ 54 then ⟨0, 0, 0, 255⟩
         else (⟨255, 255, 255, 255⟩ : RGBA)) := rfl
    rw [hpx, if_neg (by tauto)]
    decide
  have hc := foldl_add_congr (fun x => lum (img100.pixel x y)) (fun _ => 255)
    (List.range 100) 0 hpt
  exact hc.trans (by decide)

/-- Each row of `img100` inside the square band sums to `90·255`. -/
theorem rowBrightness_img100_in (y : Nat) (h : 45 ≤ y ∧ y ≤ 54) :
    rowBrightness img100 y = 22950 := by
  have hpt : ∀ x ∈ List.range 100, lum (img100.pixel x y) =
      if 45 ≤ x ∧ x ≤ 54 then 0 else 255 := by
    intro x _
    have hpx : img100.pixel x y =
        (if 45 ≤ x ∧ x ≤ 54 ∧ 45 ≤ y ∧ y ≤ 54 then ⟨0, 0, 0, 255⟩
         else (⟨255, 255, 255, 255⟩ : RGBA)) := rfl
    by_cases hx : 45 ≤ x ∧ x ≤ 54
    · rw [hpx, if_pos ⟨hx.1, hx.2, h.1, h.2⟩, if_pos hx]
      decide
    · rw [hpx, if_neg (by tauto), if_neg hx]
      decide
  have hc := foldl_add_congr (fun x => lum (img100.pixel x y))
    (fun x => if 45 ≤ x ∧ x ≤ 54 then 0 else 255) (List.range 100) 0 hpt
  exact hc.trans (by decide)

/-- Total brightness of `img100`: 9900 white pixels at 255. -/
theorem totalBrightness_img100 : totalBrightness img100 = 2524500 := by
  have hpt : ∀ y ∈ List.range 100, rowBrightness img100 y =
      if 45 ≤ y ∧ y ≤ 54 then 22950 else 25500 := by
    intro y _
    by_cases h : 45 ≤ y ∧ y ≤ 54
    · rw [rowBrightness_img100_in y h, if_pos h]
    · rw [rowBrightness_img100_out y h, if_neg h]
  have hc := foldl_add_congr (fun y => rowBrightness img100 y)
    (fun y => if 45 ≤ y ∧ y ≤ 54 then 22950 else 25500) (List.range 100) 0 hpt
  exact hc.trans (by decide)

/-- The mean brightness of `img100` is `252.45 > 200`: light background. -/
theorem isLightBg_img100 : isLightBg img100 = true := by
  unfold isLightBg
  rw [totalBrightness_img100]
  decide

/-- The content pixels of `img100` are exactly the black square. -/
theorem img100_content (x y : Nat) :
    isContentAt true (lum (img100.pixel x y)) = true ↔
      (45 ≤ x ∧ x ≤ 54 ∧ 45 ≤ y ∧ y ≤ 54) := by
  have hpx : img100.pixel x y =
      (if 45 ≤ x ∧ x ≤ 54 ∧ 45 ≤ y ∧ y ≤ 54 then ⟨0, 0, 0, 255⟩
       else (⟨255, 255, 255, 255⟩ : RGBA)) := rfl
  by_cases h : 45 ≤ x ∧ x ≤ 54 ∧ 45 ≤ y ∧ y ≤ 54
  · rw [hpx, if_pos h]
    exact iff_of_true (by decide) h
  · rw [hpx, if_neg h]
    exact iff_of_false (by decide) h

/-- The bounds scan on `img100` accumulates exactly the black square. -/
theorem processBounds_img100 : processBounds img100 = ⟨45, 45, 54, 54⟩ := by
  apply processBounds_exact img100 45 45 54 54
  · intro x y _ _
    rw [isLightBg_img100]
    exact img100_content x y
  · decide
  · decide
  · decide
  · decide
  · decide
  · decide

/-- The crop applied to `img100` is the square `[45, 55) × [45, 55)`. -/
theorem contentImg_img100 : contentImg img100 = crop img100 45 45 55 55 := by
  unfold contentImg
  rw [processBounds_img100]
  norm_num [cropCond]

/-! ### Claim theorems -/

/-- C1: end-to-end scenario.  For the 100×100 all-white image with a
single black 10×10 square at (45,45)–(54,54), the pipeline selects Light
polarity (mean brightness > 200), detects bounds (45,45,54,54), crops to
10×10, pads by `floor(0.03·10) = 0` pixels leaving 10×10, keeps the
square canvas at 10×10, applies the circular mask (every pixel's alpha
equals the mask value), and produces exactly one resized output per size
in {16, 32, 180, 192, 512} plus the full-resolution 10×10 circular
artifact. -/
theorem c1_end_to_end :
    isLightBg img100 = true ∧
    processBounds img100 = ⟨45, 45, 54, 54⟩ ∧
    (contentImg img100).width = 10 ∧ (contentImg img100).height = 10 ∧
    padAmount (contentImg img100).width = 0 ∧
    padAmount (contentImg img100).height = 0 ∧
    (padStage (contentImg img100)).width = 10 ∧
    (padStage (contentImg img100)).height = 10 ∧
    (squareStage (padStage (contentImg img100))).width = 10 ∧
    (squareStage (padStage (contentImg img100))).height = 10 ∧
    (normalizedImg img100).width = 10 ∧ (normalizedImg img100).height = 10 ∧
    ((List.range 10).all fun x => (List.range 10).all fun y =>
      ((normalizedImg img100).pixel x y).a == maskVal 10 x y) = true ∧
    (processFavicon img100 defaultSizes).1 = normalizedImg img100 ∧
    ((processFavicon img100 defaultSizes).2.map Prod.fst) = [16, 32, 180, 192, 512] ∧
    ((processFavicon img100 defaultSizes).2.all fun p =>
      (p.2.width == p.1) && (p.2.height == p.1)) = true := by
  have hc := contentImg_img100
  refine ⟨isLightBg_img100, processBounds_img100, ?_, ?_, ?_, ?_, ?_, ?_, ?_, ?_,
    ?_, ?_, ?_, rfl, rfl, rfl⟩
  all_goals simp only [normalizedImg, hc]
  all_goals decide

/-- C2 counterexample: in `imgC2` a pixel (2,1) satisfies the light-
background foreground predicate and the accumulated rectangle is the
single column (2,1)–(2,3) — by the claim the image should be cropped to
1×3 — yet the code's guard `max_x > min_x and max_y > min_y` fails and
the image passes through uncropped at 5×5. -/
theorem c2_counterexample :
    isContentAt (isLightBg imgC2) (lum (imgC2.pixel 2 1)) = true ∧
    processBounds imgC2 = ⟨2, 1, 2, 3⟩ ∧
    cropCond (processBounds imgC2) = false ∧
    (contentImg imgC2).width = 5 ∧ (contentImg imgC2).height = 5 :=
  ⟨by decide, by decide, by decide, by decide, by decide⟩

/-- C2 amended: cropping is applied exactly when the accumulated
rectangle satisfies `min_x < max_x` and `min_y < max_y` strictly — so it
is skipped not only when no pixel satisfies the foreground predicate but
also when the accumulated rectangle spans a single row or a single
column; when applied, the crop has width `max_x + 1 − min_x` and height
`max_y + 1 − min_y` (inclusive max edge) and pixel `(x, y)` of the crop
is source pixel `(x + min_x, y + min_y)`; when skipped the full original
image passes through unchanged. -/
theorem c2_crop_rule (img : Img) :
    (cropCond (processBounds img) = true ↔
      (processBounds img).minX < (processBounds img).maxX ∧
      (processBounds img).minY < (processBounds img).maxY) ∧
    (cropCond (processBounds img) = true →
      (contentImg img).width = (processBounds img).maxX + 1 - (processBounds img).minX ∧
      (contentImg img).height = (processBounds img).maxY + 1 - (processBounds img).minY ∧
      (∀ x y, (contentImg img).pixel x y =
        img.pixel (x + (processBounds img).minX) (y + (processBounds img).minY))) ∧
    (cropCond (processBounds img) = false →
      (contentImg img).width = img.width ∧
      (contentImg img).height = img.height ∧
      (∀ x y, (contentImg img).pixel x y = img.pixel x y)) := by
  refine ⟨?_, ?_, ?_⟩
  · simp [cropCond]
  · intro h
    unfold contentImg
    rw [h, if_pos rfl]
    exact ⟨rfl, rfl, fun x y => rfl⟩
  · intro h
    unfold contentImg
    rw [h, if_neg Bool.false_ne_true]
    exact ⟨rfl, rfl, fun x y => rfl⟩

/-- C2 witness: the amended crop rule evaluated on `imgC2`, whose guard
is false, passing the 5×5 image through unchanged. -/
theorem c2_witness :
    cropCond (processBounds imgC2) = false ∧ (contentImg imgC2).width = imgC2.width :=
  ⟨by decide, ((c2_crop_rule imgC2).2.2 (by decide)).1⟩

/-- C5: polarity is classified from the mean brightness over all pixels —
`isLightBg` holds exactly when the rational mean exceeds 200 — and the
foreground predicate is brightness < 250 under Light polarity and
brightness > 50 under Dark polarity. -/
theorem c5_polarity_thresholds (img : Img) (hpos : 0 < img.width * img.height) :
    (isLightBg img = true ↔
      (200 : ℚ) < (totalBrightness img : ℚ) / ((img.width * img.height : Nat) : ℚ)) ∧
    (isLightBg img = true →
      ∀ x y, (isContentAt (isLightBg img) (lum (img.pixel x y)) = true ↔
        lum (img.pixel x y) < 250)) ∧
    (isLightBg img = false →
      ∀ x y, (isContentAt (isLightBg img) (lum (img.pixel x y)) = true ↔
        50 < lum (img.pixel x y))) := by
  refine ⟨?_, ?_, ?_⟩
  · rw [isLightBg, decide_eq_true_eq,
      lt_div_iff₀ (by exact_mod_cast hpos : (0 : ℚ) < ((img.width * img.height : Nat) : ℚ))]
    constructor
    · intro h
      exact_mod_cast h
    · intro h
      exact_mod_cast h
  · intro hl x y
    rw [hl]
    unfold isContentAt
    rw [if_pos rfl, decide_eq_true_eq]
  · intro hl x y
    rw [hl]
    unfold isContentAt
    rw [if_neg Bool.false_ne_true, decide_eq_true_eq]

/-- C5 witness: the polarity rule evaluated on the 1×1 black image. -/
theorem c5_witness :
    0 < onePix.width * onePix.height ∧
    (isLightBg onePix = true ↔
      (200 : ℚ) < (totalBrightness onePix : ℚ) / ((onePix.width * onePix.height : Nat) : ℚ)) :=
  ⟨by decide, (c5_polarity_thresholds onePix (by decide)).1⟩

/-- C3 counterexample: on `imgC3` the composited square canvas has side
8; pixel (1,4) lies well inside the inscribed circle (distance ≤ S/2 − 1:
`(2·1+1−8)² + (2·4+1−8)² = 26 ≤ (8−2)² = 36`), and before masking it is a
fully transparent padding pixel (alpha 0) — by the claim it should
retain that composited alpha — yet after masking its alpha is 255: the
mask value replaces, rather than retains, the composited alpha. -/
theorem c3_counterexample :
    (squareStage (padStage (contentImg imgC3))).width = 8 ∧
    ((2 * 1 + 1 : Int) - 8) ^ 2 + ((2 * 4 + 1 : Int) - 8) ^ 2 ≤ ((8 : Int) - 2) ^ 2 ∧
    ((squareStage (padStage (contentImg imgC3))).pixel 1 4).a = 0 ∧
    ((normalizedImg imgC3).pixel 1 4).a = 255 :=
  ⟨by decide, by decide, by decide, by decide⟩

/-- C3 amended: for the composited square canvas of side S, every output
pixel whose centre lies at distance more than S/2 from the canvas centre
has alpha 0, and every pixel whose centre lies within S/2 has alpha 255
(the mask value) — the mask assignment replaces, rather than retains,
the alpha the normalized image had before masking. -/
theorem c3_mask_boundary (img : Img) (x y : Nat) :
    ((((normalizedImg img).width : Int)) ^ 2 <
        ((2 * x + 1 : Int) - ((normalizedImg img).width : Int)) ^ 2 +
        ((2 * y + 1 : Int) - ((normalizedImg img).width : Int)) ^ 2 →
      ((normalizedImg img).pixel x y).a = 0) ∧
    (((2 * x + 1 : Int) - ((normalizedImg img).width : Int)) ^ 2 +
        ((2 * y + 1 : Int) - ((normalizedImg img).width : Int)) ^ 2 ≤
        (((normalizedImg img).width : Int)) ^ 2 →
      ((normalizedImg img).pixel x y).a = 255) := by
  have hval : ((normalizedImg img).pixel x y).a =
      maskVal (normalizedImg img).width x y := rfl
  constructor
  · intro h
    rw [hval]
    unfold maskVal
    rw [if_neg (not_le.mpr h)]
  · intro h
    rw [hval]
    unfold maskVal
    rw [if_pos h]

/-- C3 witness: the amended mask rule evaluated at the centre pixel
(4,4) of the 8×8 canvas produced from `imgC3`. -/
theorem c3_witness :
    (((2 * 4 + 1 : Int) - ((normalizedImg imgC3).width : Int)) ^ 2 +
        ((2 * 4 + 1 : Int) - ((normalizedImg imgC3).width : Int)) ^ 2 ≤
        (((normalizedImg imgC3).width : Int)) ^ 2) ∧
    ((normalizedImg imgC3).pixel 4 4).a = 255 :=
  ⟨by decide, (c3_mask_boundary imgC3 4 4).2 (by decide)⟩

/-- C10: in the full-resolution composited output, every pixel's alpha is
exactly the binary mask value — so every final alpha is either 0 or
255, with no intermediate values, regardless of the pixel's alpha before
masking. -/
theorem c10_hard_edge_mask (img : Img) (x y : Nat) :
    ((normalizedImg img).pixel x y).a = maskVal (normalizedImg img).width x y ∧
    (((normalizedImg img).pixel x y).a = 0 ∨ ((normalizedImg img).pixel x y).a = 255) := by
  refine ⟨rfl, ?_⟩
  have hval : ((normalizedImg img).pixel x y).a =
      maskVal (normalizedImg img).width x y := rfl
  rw [hval]
  unfold maskVal
  split
  · exact Or.inr rfl
  · exact Or.inl rfl

/-- C6: the padding invariant.  For every image of size W×H entering the
padding step, the padded image is exactly
`(W + 2·⌊0.03·W⌋) × (H + 2·⌊0.03·H⌋)`, the source image sits at offset
`(⌊0.03·W⌋, ⌊0.03·H⌋)`, and every border pixel is fully transparent. -/
theorem c6_padding_invariant (img : Img) :
    (padStage img).width = img.width + 2 * padAmount img.width ∧
    (padStage img).height = img.height + 2 * padAmount img.height ∧
    padAmount img.width = Nat.floor ((3 : ℚ) / 100 * img.width) ∧
    padAmount img.height = Nat.floor ((3 : ℚ) / 100 * img.height) ∧
    (∀ x y, x < img.width → y < img.height →
      (padStage img).pixel (x + padAmount img.width) (y + padAmount img.height) =
        img.pixel x y) ∧
    (∀ x y, x < (padStage img).width → y < (padStage img).height →
      (x < padAmount img.width ∨ padAmount img.width + img.width ≤ x ∨
       y < padAmount img.height ∨ padAmount img.height + img.height ≤ y) →
      ((padStage img).pixel x y).a = 0) := by
  have hfloor : ∀ n : Nat, padAmount n = Nat.floor ((3 : ℚ) / 100 * n) := by
    intro n
    rw [div_mul_eq_mul_div, show ((3 : ℚ) * n) = ((3 * n : Nat) : ℚ) by push_cast; ring,
      show ((100 : ℚ)) = ((100 : Nat) : ℚ) by norm_num, Nat.floor_div_eq_div]
    unfold padAmount
    omega
  refine ⟨rfl, rfl, hfloor img.width, hfloor img.height, ?_, ?_⟩
  · intro x y hx hy
    unfold padStage
    dsimp only
    rw [if_pos (by omega), Nat.add_sub_cancel, Nat.add_sub_cancel]
  · intro x y _ _ hborder
    unfold padStage
    dsimp only
    rw [if_neg (by omega)]

/-- C6 witness: the padding invariant evaluated on the 100×50 constant
image (padding 3 horizontally and 1 vertically). -/
theorem c6_witness :
    (0 + padAmount wideImg.width = 3 ∧ 0 + padAmount wideImg.height = 1) ∧
    (padStage wideImg).pixel (0 + padAmount wideImg.width) (0 + padAmount wideImg.height) =
      wideImg.pixel 0 0 ∧
    ((padStage wideImg).pixel 0 0).a = 0 :=
  ⟨⟨by decide, by decide⟩,
   (c6_padding_invariant wideImg).2.2.2.2.1 0 0 (by decide) (by decide),
   (c6_padding_invariant wideImg).2.2.2.2.2 0 0 (by decide) (by decide)
     (Or.inl (by decide))⟩

/-- C7: the squaring invariant.  For every padded image of size W×H the
squared canvas side equals `max(W, H)`, the image is pasted at offsets
`((max−W) div 2, (max−H) div 2)` with integer division — so the margins
on the shorter axis differ by at most one, with the smaller margin on
the top/left — and the fill outside the pasted region is fully
transparent. -/
theorem c7_squaring_invariant (img : Img) :
    (squareStage img).width = max img.width img.height ∧
    (squareStage img).height = max img.width img.height ∧
    ((max img.width img.height - img.width) / 2 ≤
        (max img.width img.height - img.width) -
          (max img.width img.height - img.width) / 2 ∧
      (max img.width img.height - img.width) -
          (max img.width img.height - img.width) / 2 ≤
        (max img.width img.height - img.width) / 2 + 1) ∧
    ((max img.width img.height - img.height) / 2 ≤
        (max img.width img.height - img.height) -
          (max img.width img.height - img.height) / 2 ∧
      (max img.width img.height - img.height) -
          (max img.width img.height - img.height) / 2 ≤
        (max img.width img.height - img.height) / 2 + 1) ∧
    (∀ x y, x < img.width → y < img.height →
      (squareStage img).pixel (x + (max img.width img.height - img.width) / 2)
        (y + (max img.width img.height - img.height) / 2) = img.pixel x y) ∧
    (∀ x y, x < (squareStage img).width → y < (squareStage img).height →
      (x < (max img.width img.height - img.width) / 2 ∨
       (max img.width img.height - img.width) / 2 + img.width ≤ x ∨
       y < (max img.width img.height - img.height) / 2 ∨
       (max img.width img.height - img.height) / 2 + img.height ≤ y) →
      ((squareStage img).pixel x y).a = 0) := by
  refine ⟨rfl, rfl, by omega, by omega, ?_, ?_⟩
  · intro x y hx hy
    unfold squareStage
    dsimp only
    rw [if_pos (by omega), Nat.add_sub_cancel, Nat.add_sub_cancel]
  · intro x y _ _ hborder
    unfold squareStage
    dsimp only
    rw [if_neg (by omega)]

/-- C7 witness: the squaring invariant evaluated on the 100×50 constant
image (square side 100, vertical offset 25). -/
theorem c7_witness :
    max wideImg.width wideImg.height = 100 ∧
    (squareStage wideImg).pixel
      (0 + (max wideImg.width wideImg.height - wideImg.width) / 2)
      (0 + (max wideImg.width wideImg.height - wideImg.height) / 2) =
      wideImg.pixel 0 0 ∧
    ((squareStage wideImg).pixel 0 0).a = 0 :=
  ⟨by decide,
   (c7_squaring_invariant wideImg).2.2.2.2.1 0 0 (by decide) (by decide),
   (c7_squaring_invariant wideImg).2.2.2.2.2 0 0 (by decide) (by decide)
     (Or.inr (Or.inr (Or.inl (by decide))))⟩

/-- C8: for every all-uniform image (every pixel identical, either
polarity), the content handed to the padding step is the full original
image — same dimensions, same pixels — and the final output's
dimensions equal the padded/squared input dimensions, which are not
zero. -/
theorem c8_uniform_noop (img : Img)
    (hw : 0 < img.width) (hh : 0 < img.height)
    (hu : ∀ x y, x < img.width → y < img.height → img.pixel x y = img.pixel 0 0) :
    (contentImg img).width = img.width ∧
    (contentImg img).height = img.height ∧
    (∀ x y, x < img.width → y < img.height →
      (contentImg img).pixel x y = img.pixel x y) ∧
    (normalizedImg img).width =
      max (img.width + 2 * padAmount img.width)
        (img.height + 2 * padAmount img.height) ∧
    0 < (normalizedImg img).width := by
  have hmain : (contentImg img).width = img.width ∧
      (contentImg img).height = img.height ∧
      (∀ x y, x < img.width → y < img.height →
        (contentImg img).pixel x y = img.pixel x y) := by
    rcases Bool.eq_false_or_eq_true
        (isContentAt (isLightBg img) (lum (img.pixel 0 0))) with hP | hP
    · -- every pixel is content: the scan accumulates the full rectangle
      have hb : processBounds img =
          ⟨0, 0, img.width - 1, img.height - 1⟩ := by
        apply processBounds_exact img 0 0 (img.width - 1) (img.height - 1)
        · intro x y hx hy
          rw [hu x y hx hy]
          exact iff_of_true hP (by omega)
        · exact hw
        · exact hh
        · omega
        · omega
        · omega
        · omega
      by_cases hcc : cropCond (processBounds img) = true
      · have hcrop : contentImg img =
            crop img 0 0 (img.width - 1 + 1) (img.height - 1 + 1) := by
          unfold contentImg
          rw [hcc, if_pos rfl, hb]
        rw [hcrop]
        unfold crop
        refine ⟨by dsimp only; omega, by dsimp only; omega, ?_⟩
        intro x y _ _
        dsimp only
        rfl
      · unfold contentImg
        rw [if_neg hcc]
        exact ⟨rfl, rfl, fun _ _ _ _ => rfl⟩
    · -- no pixel is content: the scan keeps its initial accumulator
      have hb : processBounds img = ⟨img.width, img.height, 0, 0⟩ := by
        rw [processBounds, scanBounds_eq_coords]
        apply scan_id
        intro c hc
        obtain ⟨hcx, hcy⟩ := mem_coords.mp hc
        rw [hu c.1 c.2 hcx hcy]
        exact hP
      have hcc : ¬(cropCond (processBounds img) = true) := by
        rw [hb]
        simp [cropCond]
      unfold contentImg
      rw [if_neg hcc]
      exact ⟨rfl, rfl, fun _ _ _ _ => rfl⟩
  have hnw : (normalizedImg img).width =
      max ((contentImg img).width + 2 * padAmount (contentImg img).width)
        ((contentImg img).height + 2 * padAmount (contentImg img).height) := rfl
  rw [hmain.1, hmain.2.1] at hnw
  have hle := Nat.le_max_left (img.width + 2 * padAmount img.width)
    (img.height + 2 * padAmount img.height)
  exact ⟨hmain.1, hmain.2.1, hmain.2.2, hnw, by omega⟩

/-- C8 witness: the no-op behaviour evaluated on the 2×2 uniform gray
image (dark polarity, every pixel content, so the crop rectangle is the
full image). -/
theorem c8_witness :
    (0 < uniformGray.width ∧ 0 < uniformGray.height) ∧
    (contentImg uniformGray).width = uniformGray.width ∧
    0 < (normalizedImg uniformGray).width :=
  ⟨⟨by decide, by decide⟩,
   (c8_uniform_noop uniformGray (by decide) (by decide) (fun _ _ _ _ => rfl)).1,
   (c8_uniform_noop uniformGray (by decide) (by decide) (fun _ _ _ _ => rfl)).2.2.2.2⟩

/-- C9: safety on tiny inputs.  For every image with positive width and
height the mean's denominator is non-zero; whenever the crop guard
holds the crop rectangle lies inside the image (so every pixel access of
the crop is in bounds); the content, padded and squared stages keep both
dimensions positive; and the final canvas is square. -/
theorem c9_tiny_input_safety (img : Img) (hw : 0 < img.width) (hh : 0 < img.height) :
    img.width * img.height ≠ 0 ∧
    (cropCond (processBounds img) = true →
      (processBounds img).minX ≤ (processBounds img).maxX ∧
      (processBounds img).maxX < img.width ∧
      (processBounds img).minY ≤ (processBounds img).maxY ∧
      (processBounds img).maxY < img.height) ∧
    0 < (contentImg img).width ∧ 0 < (contentImg img).height ∧
    0 < (normalizedImg img).width ∧
    (normalizedImg img).width = (normalizedImg img).height := by
  have hcrop_iff : cropCond (processBounds img) = true ↔
      (processBounds img).minX < (processBounds img).maxX ∧
      (processBounds img).minY < (processBounds img).maxY := by
    simp [cropCond]
  have hbox : (processBounds img).maxX ≤ img.width - 1 ∧
      (processBounds img).maxY ≤ img.height - 1 := by
    rw [processBounds, scanBounds_eq_coords]
    have hpres := scan_pres img (isLightBg img) 0 0 (img.width - 1) (img.height - 1)
      (coords img.width img.height) ⟨img.width, img.height, 0, 0⟩
      (fun c hc _ => by
        obtain ⟨hcx, hcy⟩ := mem_coords.mp hc
        omega)
      (Nat.zero_le _) (Nat.zero_le _) (by dsimp only; omega) (by dsimp only; omega)
    exact ⟨hpres.2.2.1, hpres.2.2.2⟩
  have hcontent : 0 < (contentImg img).width ∧ 0 < (contentImg img).height := by
    by_cases hcc : cropCond (processBounds img) = true
    · have h' := hcrop_iff.mp hcc
      have hcrop : contentImg img =
          crop img (processBounds img).minX (processBounds img).minY
            ((processBounds img).maxX + 1) ((processBounds img).maxY + 1) := by
        unfold contentImg
        rw [hcc, if_pos rfl]
      rw [hcrop]
      unfold crop
      constructor
      · dsimp only
        omega
      · dsimp only
        omega
    · unfold contentImg
      rw [if_neg hcc]
      exact ⟨hw, hh⟩
  have hnw : (normalizedImg img).width =
      max ((contentImg img).width + 2 * padAmount (contentImg img).width)
        ((contentImg img).height + 2 * padAmount (contentImg img).height) := rfl
  have hle := Nat.le_max_left
    ((contentImg img).width + 2 * padAmount (contentImg img).width)
    ((contentImg img).height + 2 * padAmount (contentImg img).height)
  refine ⟨by positivity, ?_, hcontent.1, hcontent.2, by omega, rfl⟩
  intro hcc
  have h' := hcrop_iff.mp hcc
  exact ⟨by omega, by omega, by omega, by omega⟩

/-- C9 witness: the safety facts evaluated on the 1×1 black image. -/
theorem c9_witness :
    (0 < onePix.width ∧ 0 < onePix.height) ∧
    0 < (contentImg onePix).width ∧
    0 < (normalizedImg onePix).width :=
  ⟨⟨by decide, by decide⟩,
   (c9_tiny_input_safety onePix (by decide) (by decide)).2.2.1,
   (c9_tiny_input_safety onePix (by decide) (by decide)).2.2.2.2.1⟩

/-- Characterization of the save loop under an encoder-failure oracle:
the surfaced error is the first failing size; the attempted sizes are
the successful head segment followed by the first failing size (when one
exists), which is an initial segment of the configured list; and with no
failure every size is attempted. -/
theorem saveSizes_characterize (fails : Nat → Bool) :
    ∀ l : List Nat,
      (saveSizes fails l).2 = l.find? fails ∧
      (saveSizes fails l).1 =
        l.takeWhile (fun s => !fails s) ++ (l.find? fails).toList ∧
      (∃ t, (saveSizes fails l).1 ++ t = l) ∧
      ((saveSizes fails l).2 = none → (saveSizes fails l).1 = l)
  | [] => ⟨rfl, rfl, ⟨[], rfl⟩, fun _ => rfl⟩
  | s :: l => by
    have hdef : saveSizes fails (s :: l) =
        if fails s then ([s], some s)
        else ((saveSizes fails l).1.cons s, (saveSizes fails l).2) := rfl
    rcases Bool.eq_false_or_eq_true (fails s) with h | h
    · -- the save of `s` raises: the loop stops with the error
      have hsave : saveSizes fails (s :: l) = ([s], some s) := by
        rw [hdef, h, if_pos rfl]
      rw [hsave]
      refine ⟨?_, ?_, ⟨l, rfl⟩, ?_⟩
      · dsimp only
        rw [List.find?_cons_of_pos _ h]
      · dsimp only
        rw [List.find?_cons_of_pos _ h, List.takeWhile_cons_of_neg (by simp [h])]
        rfl
      · intro hnone
        simp at hnone
    · -- the save of `s` succeeds: the loop continues
      have ih := saveSizes_characterize fails l
      have hsave : saveSizes fails (s :: l) =
          ((saveSizes fails l).1.cons s, (saveSizes fails l).2) := by
        rw [hdef, h, if_neg Bool.false_ne_true]
      have hfind : (s :: l).find? fails = l.find? fails :=
        List.find?_cons_of_neg _ (by simp [h])
      rw [hsave]
      refine ⟨?_, ?_, ?_, ?_⟩
      · dsimp only
        rw [hfind, ih.1]
      · dsimp only
        rw [hfind, List.takeWhile_cons_of_pos (by simp [h]), ih.2.1]
        rfl
      · obtain ⟨t, ht⟩ := ih.2.2.1
        exact ⟨t, by rw [List.cons_append, ht]⟩
      · intro hnone
        dsimp only at hnone ⊢
        rw [ih.2.2.2 hnone]

/-- C4 counterexample: with the encoder failing exactly on size 16 (the
first configured size), the loop attempts only size 16 — size 32 is
configured but never attempted, because the uncaught error aborts the
loop — refuting "a write failure on an earlier size still leaves every
later size attempted". -/
theorem c4_counterexample :
    (saveSizes (fun s => decide (s = 16)) defaultSizes).1 = [16] ∧
    (saveSizes (fun s => decide (s = 16)) defaultSizes).2 = some 16 ∧
    32 ∈ defaultSizes ∧
    ¬(32 ∈ (saveSizes (fun s => decide (s = 16)) defaultSizes).1) :=
  ⟨by decide, by decide, by decide, by decide⟩

/-- C4 amended: a write failure is surfaced to the caller as the first
failing size's error, is not retried and not swallowed, and the sizes
attempted before it are exactly the successful initial segment of the
configured list — but the failure aborts the loop, so the sizes after
the failing one are NOT attempted; when no save fails, every configured
size is attempted in order. -/
theorem c4_save_loop (fails : Nat → Bool) (l : List Nat) :
    (saveSizes fails l).2 = l.find? fails ∧
    (saveSizes fails l).1 =
      l.takeWhile (fun s => !fails s) ++ (l.find? fails).toList ∧
    (∃ t, (saveSizes fails l).1 ++ t = l) ∧
    ((saveSizes fails l).2 = none → (saveSizes fails l).1 = l) :=
  saveSizes_characterize fails l

/-- C4 witness: the loop with a never-failing encoder attempts all five
default sizes and surfaces no error. -/
theorem c4_witness :
    (saveSizes (fun _ => false) defaultSizes).2 =
      defaultSizes.find? (fun _ => false) ∧
    (saveSizes (fun _ => false) defaultSizes).1 = defaultSizes :=
  ⟨(c4_save_loop (fun _ => false) defaultSizes).1,
   (c4_save_loop (fun _ => false) defaultSizes).2.2.2 (by decide)⟩

/-- C10 witness: the hard-edge mask facts evaluated on the uniform gray
image's output canvas. -/
theorem c10_witness :
    ((normalizedImg uniformGray).pixel 0 0).a =
      maskVal (normalizedImg uniformGray).width 0 0 ∧
    (((normalizedImg uniformGray).pixel 1 1).a = 0 ∨
      ((normalizedImg uniformGray).pixel 1 1).a = 255) :=
  ⟨(c10_hard_edge_mask uniformGray 0 0).1,
   (c10_hard_edge_mask uniformGray 1 1).2⟩
